import Mathlib

/-!
Verification of the `alloc-pool` object-recycling pool.

Shallow embedding of `src/lib.rs`, `src/pool.rs` and `src/bytes.rs` under
sequential (interference-free) semantics: each compare-and-swap loop runs
without contention, so a CAS succeeds on its first attempt.  The atomic
`head` pointer chain of the free list is represented as a Lean list (stack
top first); the stable heap address of each `Box<Entry<T>>` is modelled by a
numeric `id`; `Option` models the `unwrap` panics on a taken entry and
`Except` models the abort paths of `freeze_range`.
-/

namespace AllocPool

/-- One node of the intrusive free list (`Entry<T>` in `src/lib.rs`).  The
Rust field `next : Option<NonNull<Entry<T>>>` is represented by the position
of the entry inside the `PoolHead.head` list below; `id` models the stable
heap address of the `Box<Entry<T>>` allocation. -/
structure Entry (α : Type) where
  id : Nat
  value : α
deriving DecidableEq

/-- Shared mutable state of a pool (`PoolHead<T>` in `src/lib.rs`): the chain
hanging off the atomic `head` pointer is the list (stack top first), and
`isDetached` is the atomic `is_detached` flag. -/
structure PoolHead (α : Type) where
  isDetached : Bool
  head : List (Entry α)
deriving DecidableEq

/-- Private glue `Inner<T>`: the owned entry.  `entry = none` models the
state after `self.entry.take()` in the release path.  The Rust field
`pool_head : Arc<PoolHead<T>>` is modelled by threading the `PoolHead` state
explicitly through every operation that touches it. -/
structure Inner (α : Type) where
  entry : Option (Entry α)
deriving DecidableEq

/-- `Unique<T>`: the exclusive handle, wrapping one `Inner<T>`. -/
structure Unique (α : Type) where
  inner : Inner α
deriving DecidableEq

/-- `Shared<T>` is `Arc<Inner<T>>`: `refCount` is the strong count of the one
`Arc` allocation that every clone of this handle shares. -/
structure Shared (α : Type) where
  refCount : Nat
  inner : Inner α
deriving DecidableEq

variable {α : Type}

/-- `Inner::new`: boxes a fresh entry with `next = None`; `freshId` models
the address the allocator hands out for the new box. -/
def Inner.new (freshId : Nat) (value : α) : Inner α :=
  { entry := some { id := freshId, value := value } }

/-- The value access `&self.inner.entry.as_ref().unwrap().value` behind
`AsRef`/`Deref` on both handle kinds; `none` models the `unwrap` panic on a
taken entry. -/
def Inner.as_ref (i : Inner α) : Option α :=
  i.entry.map Entry.value

/-- `Pool::new` (`src/pool.rs`): a fresh `PoolHead` with
`is_detached = false` and a null head pointer. -/
def Pool.new (α : Type) : PoolHead α :=
  { isDetached := false, head := [] }

/-- The `PoolHead` allocated by `Inner::new_detached` (`src/lib.rs`):
`is_detached` is already true at construction and the head is null. -/
def PoolHead.newDetached (α : Type) : PoolHead α :=
  { isDetached := true, head := [] }

/-- `Inner::new_detached`: a fresh inner bound to a private, permanently
detached `PoolHead`. -/
def Inner.new_detached (freshId : Nat) (value : α) : Inner α × PoolHead α :=
  (Inner.new freshId value, PoolHead.newDetached α)

/-- `Unique::new_detached`. -/
def Unique.new_detached (freshId : Nat) (value : α) : Unique α × PoolHead α :=
  ({ inner := (Inner.new_detached freshId value).1 }, (Inner.new_detached freshId value).2)

/-- `Pool::lend` under sequential semantics: on a non-null head the CAS
succeeds at once and the top entry is popped (its `next` is reset to `None`);
on a null head `make_value` builds a fresh value boxed at address `freshId`.
The returned `Bool` records whether `make_value` was invoked. -/
def Pool.lend (s : PoolHead α) (freshId : Nat) (make_value : Unit → α) :
    Unique α × PoolHead α × Bool :=
  match s.head with
  | [] => ({ inner := Inner.new freshId (make_value ()) }, s, true)
  | e :: rest => ({ inner := { entry := some e } }, { s with head := rest }, false)

/-- What the release path (`Drop for Inner`) did with the entry it owned. -/
inductive ReleaseAction (α : Type) where
  | pushed (e : Entry α)
  | discarded (e : Entry α)
  | noEntry
deriving DecidableEq

/-- `Drop for Inner` under sequential semantics: take the entry; if the pool
head is observed detached, break out of the loop and let the entry box drop;
otherwise link the entry in front of the current head and CAS it in (the CAS
succeeds without interference). -/
def Inner.drop (i : Inner α) (s : PoolHead α) : PoolHead α × ReleaseAction α :=
  match i.entry with
  | none => (s, ReleaseAction.noEntry)
  | some e =>
    if s.isDetached then (s, ReleaseAction.discarded e)
    else ({ s with head := e :: s.head }, ReleaseAction.pushed e)

/-- `Unique::freeze`: `Arc::new(self.inner)` — a shared handle with strong
count 1 over the very same inner. -/
def Unique.freeze (u : Unique α) : Shared α :=
  { refCount := 1, inner := u.inner }

/-- `Clone for Shared`: clone the `Arc`, incrementing the strong count; the
inner (and its entry) is aliased, not copied. -/
def Shared.clone (c : Shared α) : Shared α :=
  { c with refCount := c.refCount + 1 }

/-- Dropping one `Shared` handle: the `Arc` decrements its strong count, and
only when the count reaches zero does `Drop for Inner` (the release path)
run.  Returns the surviving handle state, the pool head afterwards, and
whether the release path ran. -/
def Shared.drop (c : Shared α) (s : PoolHead α) :
    Option (Shared α) × PoolHead α × Bool :=
  if c.refCount ≤ 1 then (none, (Inner.drop c.inner s).1, true)
  else (some { c with refCount := c.refCount - 1 }, s, false)

/-- `PartialEq for Shared`: compares the two referenced values, not the
handle identities; `none` models the `unwrap` panic on a taken entry. -/
def Shared.eqShared [BEq α] (a b : Shared α) : Option Bool :=
  match Inner.as_ref a.inner, Inner.as_ref b.inner with
  | some x, some y => some (x == y)
  | _, _ => none

/-- `Hash for Shared`: feeds the referenced value (only) to the hasher. -/
def Shared.hashShared (hashFn : α → Nat) (a : Shared α) : Option Nat :=
  (Inner.as_ref a.inner).map hashFn

/-- Mutation through `AsMut`/`DerefMut` on `Unique`: apply `f` to the value
behind `self.inner.entry.as_mut().unwrap()`. -/
def Unique.mapValue (f : α → α) (u : Unique α) : Unique α :=
  { inner := { entry := u.inner.entry.map fun e => { e with value := f e.value } } }

/-- The drain loop of `Drop for PoolHead`: each iteration CAS-pops the top
entry and frees it, until the head is observed null. -/
def drainList : List (Entry α) → List (Entry α)
  | [] => []
  | _ :: rest => drainList rest

/-- The state of the pool head once the drain loop of its destructor has
run. -/
def PoolHead.drain (s : PoolHead α) : PoolHead α :=
  { s with head := drainList s.head }

/-- `Drop for PoolHead`: first store `is_detached = true` (forbidding further
appends), then drain and free every remaining entry. -/
def PoolHead.teardown (s : PoolHead α) : PoolHead α :=
  PoolHead.drain { s with isDetached := true }

/-- One atomic operation on the shared pool-head state, covering every code
path of the crate that touches `PoolHead`. -/
inductive PoolOp (α : Type) where
  | lend (freshId : Nat) (make_value : Unit → α)
  | release (i : Inner α)
  | sharedDrop (c : Shared α)
  | teardown

/-- The effect of one operation on the pool-head state. -/
def PoolOp.apply : PoolOp α → PoolHead α → PoolHead α
  | PoolOp.lend freshId f, s => (Pool.lend s freshId f).2.1
  | PoolOp.release i, s => (Inner.drop i s).1
  | PoolOp.sharedDrop c, s => (Shared.drop c s).2.1
  | PoolOp.teardown, s => PoolHead.teardown s

/-- The external growable byte buffer (`Vec<u8>`): its bytes plus the
reserved capacity. -/
structure ByteVec where
  data : List Nat
  cap : Nat
deriving DecidableEq

/-- `Vec::new`. -/
def ByteVec.new : ByteVec := { data := [], cap := 0 }

/-- `Vec::clear`: truncates the length to zero; capacity untouched. -/
def ByteVec.clear (v : ByteVec) : ByteVec := { v with data := [] }

/-- `Vec::shrink_to_fit`: drops the reserved capacity down to the used
length; the bytes are unchanged. -/
def ByteVec.shrink_to_fit (v : ByteVec) : ByteVec := { v with cap := v.data.length }

/-- `BytesMut` (`src/bytes.rs`): wrapper around `Unique<Vec<u8>>`. -/
structure BytesMut where
  unique : Unique ByteVec
deriving DecidableEq

/-- `Bytes` (`src/bytes.rs`): a `Shared<Vec<u8>>` plus the immutable view
window `[offset_from, offset_to)`. -/
structure Bytes where
  inner : Shared ByteVec
  offset_from : Nat
  offset_to : Nat
deriving DecidableEq

/-- `BytesMut::new_detached`. -/
def BytesMut.new_detached (freshId : Nat) (value : ByteVec) : BytesMut × PoolHead ByteVec :=
  ({ unique := (Unique.new_detached freshId value).1 }, (Unique.new_detached freshId value).2)

/-- `BytesMut::freeze`: `shrink_to_fit` on the buffer, freeze the unique into
a shared handle, and take the full window `[0, len)`.  `none` models the
`unwrap` panic of the `len()` read on a taken entry. -/
def BytesMut.freeze (b : BytesMut) : Option Bytes :=
  let u := Unique.mapValue ByteVec.shrink_to_fit b.unique
  let sh := Unique.freeze u
  (Inner.as_ref sh.inner).map fun v =>
    { inner := sh, offset_from := 0, offset_to := v.data.length }

/-- `std::ops::Bound<usize>` as produced by `RangeBounds::start_bound` and
`RangeBounds::end_bound`. -/
inductive RBound where
  | unbounded
  | included (k : Nat)
  | excluded (k : Nat)
deriving DecidableEq

/-- `BytesMut::freeze_range`: freeze, then narrow the window according to the
two bounds of the range.  `Except.error` models the `panic!`-style aborts of
the source (including the `unreachable` arm for an excluded start bound);
the Rust function returns `Bytes` directly, never a recoverable error
value. -/
def BytesMut.freeze_range (b : BytesMut) (startB endB : RBound) : Except String Bytes :=
  match b.freeze with
  | none => Except.error "unwrap on taken entry"
  | some bytes0 =>
    match
      (match startB with
       | RBound.unbounded => Except.ok bytes0
       | RBound.included offset =>
         if offset ≤ bytes0.offset_to then Except.ok { bytes0 with offset_from := offset }
         else Except.error "BytesMut::freeze_range start offset greater than slice length"
       | RBound.excluded _ => (Except.error "unreachable" : Except String Bytes)) with
    | Except.error msg => Except.error msg
    | Except.ok bytes =>
      match endB with
      | RBound.unbounded => Except.ok bytes
      | RBound.included offset =>
        if offset < bytes.offset_to then Except.ok { bytes with offset_to := offset + 1 }
        else Except.error "BytesMut::freeze_range included end offset greater or equal than slice length"
      | RBound.excluded offset =>
        if offset ≤ bytes.offset_to then Except.ok { bytes with offset_to := offset }
        else Except.error "BytesMut::freeze_range excluded end offset greater than slice length"

/-- `AsRef<[u8]> for Bytes`: the slice
`&self.inner[self.offset_from .. self.offset_to]`.  `none` models the panics
of Rust range slicing (start past end, or end past the length) and the
`unwrap` behind the shared handle's deref. -/
def Bytes.as_ref (b : Bytes) : Option (List Nat) :=
  match Inner.as_ref b.inner.inner with
  | none => none
  | some v =>
    if b.offset_from ≤ b.offset_to ∧ b.offset_to ≤ v.data.length then
      some ((v.data.drop b.offset_from).take (b.offset_to - b.offset_from))
    else none

/-- `PartialEq for Bytes`: compares the two visible slices. -/
def Bytes.eqBytes (a b : Bytes) : Option Bool :=
  match a.as_ref, b.as_ref with
  | some x, some y => some (x == y)
  | _, _ => none

/-- `Hash for Bytes`: feeds the visible slice (only) to the hasher. -/
def Bytes.hashBytes (hashFn : List Nat → Nat) (a : Bytes) : Option Nat :=
  a.as_ref.map hashFn

/-- `BytesPool::new`: wraps a fresh `Pool<Vec<u8>>`. -/
def BytesPool.new : PoolHead ByteVec :=
  Pool.new ByteVec

/-- `BytesPool::lend`: lend from the inner `Pool<Vec<u8>>` with factory
`Vec::new`, then `clear()` the returned buffer before wrapping it as
`BytesMut`. -/
def BytesPool.lend (s : PoolHead ByteVec) (freshId : Nat) :
    BytesMut × PoolHead ByteVec × Bool :=
  match Pool.lend s freshId (fun _ => ByteVec.new) with
  | (u, s2, made) => ({ unique := Unique.mapValue ByteVec.clear u }, s2, made)

/-- The drain loop always empties the list. -/
theorem drainList_eq_nil (l : List (Entry α)) : drainList l = [] := by
  induction l with
  | nil => rfl
  | cons e rest ih => simpa [drainList] using ih

/-- C1: on a non-detached pool, `lend` followed by dropping the returned
`Unique` followed by a second `lend` hands back the identical recycled entry
(same box address and value); the second call never invokes its factory, so
the factory runs at most once across the two calls; and in general a `lend`
invokes its factory exactly when it observed the free list empty. -/
theorem c1_lend_drop_lend_recycles (s : PoolHead α) (id1 id2 : Nat)
    (f g : Unit → α) (hdet : s.isDetached = false) :
    let r1 := Pool.lend s id1 f
    let s2 := (Inner.drop r1.1.inner r1.2.1).1
    let r2 := Pool.lend s2 id2 g
    r2.1.inner.entry = r1.1.inner.entry ∧ r2.2.2 = false ∧
      (r1.2.2 = true ↔ s.head = []) := by
  cases h : s.head with
  | nil => simp [Pool.lend, Inner.drop, Inner.new, hdet, h]
  | cons e rest => simp [Pool.lend, Inner.drop, hdet, h]

/-- C1 witness: the theorem applied to a fresh pool of naturals. -/
theorem c1_lend_drop_lend_recycles_witness :
    (Pool.new Nat).isDetached = false ∧
    (let r1 := Pool.lend (Pool.new Nat) 0 (fun _ => 7)
     let s2 := (Inner.drop r1.1.inner r1.2.1).1
     let r2 := Pool.lend s2 1 (fun _ => 8)
     r2.1.inner.entry = r1.1.inner.entry ∧ r2.2.2 = false ∧
       (r1.2.2 = true ↔ (Pool.new Nat).head = [])) :=
  ⟨rfl, c1_lend_drop_lend_recycles (Pool.new Nat) 0 1 (fun _ => 7) (fun _ => 8) rfl⟩

/-- C3: on release of an entry, if the detached flag is observed true the
entry is discarded and the list is untouched; if observed false, the entry is
pushed onto the free list; and once the flag is true, no operation of the
crate ever adds an entry to the list (the resulting list is a sublist of the
old one). -/
theorem c3_detached_never_pushes :
    (∀ (i : Inner α) (e : Entry α) (s : PoolHead α), i.entry = some e →
      s.isDetached = true → Inner.drop i s = (s, ReleaseAction.discarded e)) ∧
    (∀ (i : Inner α) (e : Entry α) (s : PoolHead α), i.entry = some e →
      s.isDetached = false →
      Inner.drop i s = ({ s with head := e :: s.head }, ReleaseAction.pushed e)) ∧
    (∀ (op : PoolOp α) (s : PoolHead α), s.isDetached = true →
      ((PoolOp.apply op s).head).Sublist s.head) := by
  refine ⟨?_, ?_, ?_⟩
  · intro i e s hi hd
    simp [Inner.drop, hi, hd]
  · intro i e s hi hd
    simp [Inner.drop, hi, hd]
  · intro op s hd
    cases op with
    | lend freshId f =>
      cases h : s.head with
      | nil => simp [PoolOp.apply, Pool.lend, h]
      | cons e rest => simp [PoolOp.apply, Pool.lend, h, List.sublist_cons_self]
    | release i =>
      cases hi : i.entry with
      | none => simp [PoolOp.apply, Inner.drop, hi]
      | some e => simp [PoolOp.apply, Inner.drop, hi, hd]
    | sharedDrop c =>
      by_cases hc : c.refCount ≤ 1
      · cases hi : c.inner.entry with
        | none => simp [PoolOp.apply, Shared.drop, hc, Inner.drop, hi]
        | some e => simp [PoolOp.apply, Shared.drop, hc, Inner.drop, hi, hd]
      · simp [PoolOp.apply, Shared.drop, hc]
    | teardown =>
      simp [PoolOp.apply, PoolHead.teardown, PoolHead.drain, drainList_eq_nil]

/-- C3 witness: the theorem applied to a detached pool head holding one
entry, released from a unique handle and stepped by a lend operation. -/
theorem c3_detached_never_pushes_witness :
    (Inner.new 5 (3 : Nat)).entry = some { id := 5, value := 3 } ∧
    (PoolHead.newDetached Nat).isDetached = true ∧
    Inner.drop (Inner.new 5 (3 : Nat)) (PoolHead.newDetached Nat)
      = (PoolHead.newDetached Nat, ReleaseAction.discarded { id := 5, value := 3 }) ∧
    ((PoolOp.apply (PoolOp.lend 0 (fun _ => (0 : Nat))) (PoolHead.newDetached Nat)).head).Sublist
      (PoolHead.newDetached Nat).head :=
  ⟨rfl, rfl,
   (@c3_detached_never_pushes Nat).1 (Inner.new 5 3) { id := 5, value := 3 }
     (PoolHead.newDetached Nat) rfl rfl,
   (@c3_detached_never_pushes Nat).2.2 (PoolOp.lend 0 (fun _ => 0))
     (PoolHead.newDetached Nat) rfl⟩

/-- C4: `freeze` yields a shared handle with strong count 1 over the same
inner; `clone` increments the count and aliases the same inner; dropping a
non-last clone (count at least 2) leaves the pool state untouched and does
not run the release path; dropping the last clone (count 1) runs the release
path (`Drop for Inner`) exactly then. -/
theorem c4_shared_release_only_last :
    (∀ u : Unique α, (Unique.freeze u).refCount = 1 ∧ (Unique.freeze u).inner = u.inner) ∧
    (∀ c : Shared α, (Shared.clone c).refCount = c.refCount + 1 ∧
      (Shared.clone c).inner = c.inner) ∧
    (∀ (c : Shared α) (s : PoolHead α), 2 ≤ c.refCount →
      Shared.drop c s = (some { c with refCount := c.refCount - 1 }, s, false)) ∧
    (∀ (c : Shared α) (s : PoolHead α), c.refCount = 1 →
      Shared.drop c s = (none, (Inner.drop c.inner s).1, true)) := by
  refine ⟨fun u => ⟨rfl, rfl⟩, fun c => ⟨rfl, rfl⟩, ?_, ?_⟩
  · intro c s hc
    have : ¬ c.refCount ≤ 1 := by omega
    simp [Shared.drop, this]
  · intro c s hc
    simp [Shared.drop, hc]

/-- C4 witness: freeze a detached unique into handle A, clone it into B
(count 2), drop A — the pool state is untouched and no release runs — then
drop B and the release path runs. -/
theorem c4_shared_release_only_last_witness :
    (2 ≤ (Shared.clone (Unique.freeze (Unique.new_detached 0 (9 : Nat)).1)).refCount) ∧
    Shared.drop (Shared.clone (Unique.freeze (Unique.new_detached 0 (9 : Nat)).1))
        (PoolHead.newDetached Nat)
      = (some (Unique.freeze (Unique.new_detached 0 (9 : Nat)).1),
         PoolHead.newDetached Nat, false) ∧
    Shared.drop (Unique.freeze (Unique.new_detached 0 (9 : Nat)).1)
        (PoolHead.newDetached Nat)
      = (none,
         (Inner.drop (Unique.freeze (Unique.new_detached 0 (9 : Nat)).1).inner
           (PoolHead.newDetached Nat)).1, true) :=
  ⟨by decide,
   (@c4_shared_release_only_last Nat).2.2.1
     (Shared.clone (Unique.freeze (Unique.new_detached 0 9).1))
     (PoolHead.newDetached Nat) (by decide),
   (@c4_shared_release_only_last Nat).2.2.2
     (Unique.freeze (Unique.new_detached 0 9).1)
     (PoolHead.newDetached Nat) rfl⟩

/-- C5: `BytesPool::lend` always hands back a buffer of length zero — the
entry really carries a buffer (no unwrap failure) whose byte list is empty —
and when the free list was non-empty the returned buffer is the recycled one
with its capacity retained (the reset truncates the length only). -/
theorem c5_bytes_pool_lend_clears (s : PoolHead ByteVec) (freshId : Nat) :
    ((Inner.as_ref ((BytesPool.lend s freshId).1).unique.inner).isSome = true) ∧
    (∀ v, Inner.as_ref ((BytesPool.lend s freshId).1).unique.inner = some v →
      v.data = []) ∧
    (∀ e rest, s.head = e :: rest →
      Inner.as_ref ((BytesPool.lend s freshId).1).unique.inner
        = some { data := [], cap := e.value.cap }) := by
  cases h : s.head with
  | nil =>
    refine ⟨?_, ?_, ?_⟩
    · simp [BytesPool.lend, Pool.lend, h, Inner.new, Unique.mapValue, Inner.as_ref]
    · intro v hv
      simp [BytesPool.lend, Pool.lend, h, Inner.new, Unique.mapValue, Inner.as_ref,
        ByteVec.clear, ByteVec.new] at hv
      simp [← hv, ByteVec.new]
    · intro e rest he
      exact absurd he (by simp)
  | cons e rest =>
    refine ⟨?_, ?_, ?_⟩
    · simp [BytesPool.lend, Pool.lend, h, Unique.mapValue, Inner.as_ref]
    · intro v hv
      simp [BytesPool.lend, Pool.lend, h, Unique.mapValue, Inner.as_ref,
        ByteVec.clear] at hv
      simp [← hv]
    · intro e2 rest2 he
      injection he with h1 h2
      subst h1
      simp [BytesPool.lend, Pool.lend, h, Unique.mapValue, Inner.as_ref, ByteVec.clear]

/-- C5 witness: the theorem applied to a pool whose free list holds one
recycled buffer of capacity 16 with stale contents. -/
theorem c5_bytes_pool_lend_clears_witness :
    (let s : PoolHead ByteVec :=
      { isDetached := false,
        head := [{ id := 3, value := { data := [1, 2, 3], cap := 16 } }] }
     Inner.as_ref ((BytesPool.lend s 7).1).unique.inner
       = some { data := [], cap := 16 }) :=
  c5_bytes_pool_lend_clears
    { isDetached := false,
      head := [{ id := 3, value := { data := [1, 2, 3], cap := 16 } }] } 7
    |>.2.2 { id := 3, value := { data := [1, 2, 3], cap := 16 } } [] rfl

/-- C6: when `lend` pops a recycled entry, the returned unique handle holds
that exact entry — same box address, value bit-for-bit as last released, no
reset or mutation — the factory is not invoked, and only the head entry is
removed from the list. -/
theorem c6_lend_no_reset (s : PoolHead α) (freshId : Nat) (f : Unit → α)
    (e : Entry α) (rest : List (Entry α)) (h : s.head = e :: rest) :
    Pool.lend s freshId f
      = ({ inner := { entry := some e } }, { s with head := rest }, false) := by
  simp [Pool.lend, h]

/-- C6 witness: the theorem applied to a pool holding one entry with value
42 at address 11. -/
theorem c6_lend_no_reset_witness :
    Pool.lend { isDetached := false, head := [{ id := 11, value := (42 : Nat) }] }
        0 (fun _ => 0)
      = ({ inner := { entry := some { id := 11, value := 42 } } },
         { isDetached := false, head := [] }, false) :=
  c6_lend_no_reset
    { isDetached := false, head := [{ id := 11, value := (42 : Nat) }] }
    0 (fun _ => 0) { id := 11, value := 42 } [] rfl

/-- Freezing a live `BytesMut` yields the shared buffer (capacity shrunk to
the used length) with the full window `[0, len)`. -/
theorem freeze_of_live (b : BytesMut) (e : Entry ByteVec)
    (hlive : b.unique.inner.entry = some e) :
    b.freeze = some
      { inner :=
          { refCount := 1,
            inner := { entry := some { id := e.id, value := ByteVec.shrink_to_fit e.value } } },
        offset_from := 0, offset_to := e.value.data.length } := by
  simp [BytesMut.freeze, Unique.mapValue, Unique.freeze, Inner.as_ref, hlive,
    ByteVec.shrink_to_fit]

/-- C2: against the frozen length `L`, `freeze_range` succeeds exactly when
the start bound is unbounded (window starts at 0) or an included `k ≤ L`
(window starts at `k`), and the end bound is unbounded (window ends at `L`),
an included `k < L` (window ends at `k + 1`), or an excluded `k ≤ L` (window
ends at `k`); any other bound aborts with an error, and a successful call
returns exactly that window. -/
theorem c2_freeze_range_bounds (b : BytesMut) (e : Entry ByteVec)
    (hlive : b.unique.inner.entry = some e) (startB endB : RBound) :
    ((∃ bs, BytesMut.freeze_range b startB endB = Except.ok bs) ↔
      ((match startB with
        | RBound.unbounded => True
        | RBound.included k => k ≤ e.value.data.length
        | RBound.excluded _ => False) ∧
       (match endB with
        | RBound.unbounded => True
        | RBound.included k => k < e.value.data.length
        | RBound.excluded k => k ≤ e.value.data.length))) ∧
    (∀ bs, BytesMut.freeze_range b startB endB = Except.ok bs →
      bs.offset_from = (match startB with
        | RBound.unbounded => 0
        | RBound.included k => k
        | RBound.excluded _ => 0) ∧
      bs.offset_to = (match endB with
        | RBound.unbounded => e.value.data.length
        | RBound.included k => k + 1
        | RBound.excluded k => k)) := by
  have hfr := freeze_of_live b e hlive
  cases startB with
  | excluded j =>
    refine ⟨by simp [BytesMut.freeze_range, hfr], ?_⟩
    intro bs hbs
    simp [BytesMut.freeze_range, hfr] at hbs
  | included j =>
    by_cases hj : j ≤ e.value.data.length
    · cases endB with
      | unbounded =>
        refine ⟨by simp [BytesMut.freeze_range, hfr, hj], ?_⟩
        intro bs hbs
        simp [BytesMut.freeze_range, hfr, hj] at hbs
        subst hbs
        simp
      | included k =>
        by_cases hk : k < e.value.data.length
        · refine ⟨by simp [BytesMut.freeze_range, hfr, hj, hk], ?_⟩
          intro bs hbs
          simp [BytesMut.freeze_range, hfr, hj, hk] at hbs
          subst hbs
          simp
        · refine ⟨by simp [BytesMut.freeze_range, hfr, hj, hk], ?_⟩
          intro bs hbs
          simp [BytesMut.freeze_range, hfr, hj, hk] at hbs
      | excluded k =>
        by_cases hk : k ≤ e.value.data.length
        · refine ⟨by simp [BytesMut.freeze_range, hfr, hj, hk], ?_⟩
          intro bs hbs
          simp [BytesMut.freeze_range, hfr, hj, hk] at hbs
          subst hbs
          simp
        · refine ⟨by simp [BytesMut.freeze_range, hfr, hj, hk], ?_⟩
          intro bs hbs
          simp [BytesMut.freeze_range, hfr, hj, hk] at hbs
    · refine ⟨by simp [BytesMut.freeze_range, hfr, hj], ?_⟩
      intro bs hbs
      simp [BytesMut.freeze_range, hfr, hj] at hbs
  | unbounded =>
    cases endB with
    | unbounded =>
      refine ⟨by simp [BytesMut.freeze_range, hfr], ?_⟩
      intro bs hbs
      simp [BytesMut.freeze_range, hfr] at hbs
      subst hbs
      simp
    | included k =>
      by_cases hk : k < e.value.data.length
      · refine ⟨by simp [BytesMut.freeze_range, hfr, hk], ?_⟩
        intro bs hbs
        simp [BytesMut.freeze_range, hfr, hk] at hbs
        subst hbs
        simp
      · refine ⟨by simp [BytesMut.freeze_range, hfr, hk], ?_⟩
        intro bs hbs
        simp [BytesMut.freeze_range, hfr, hk] at hbs
    | excluded k =>
      by_cases hk : k ≤ e.value.data.length
      · refine ⟨by simp [BytesMut.freeze_range, hfr, hk], ?_⟩
        intro bs hbs
        simp [BytesMut.freeze_range, hfr, hk] at hbs
        subst hbs
        simp
      · refine ⟨by simp [BytesMut.freeze_range, hfr, hk], ?_⟩
        intro bs hbs
        simp [BytesMut.freeze_range, hfr, hk] at hbs

/-- C2 witness: the theorem applied to a detached five-byte buffer with the
range `2 ..= 3`. -/
theorem c2_freeze_range_bounds_witness :
    ((BytesMut.new_detached 0 { data := [0, 1, 2, 3, 4], cap := 5 }).1).unique.inner.entry
      = some { id := 0, value := { data := [0, 1, 2, 3, 4], cap := 5 } } ∧
    ((∃ bs, BytesMut.freeze_range
        (BytesMut.new_detached 0 { data := [0, 1, 2, 3, 4], cap := 5 }).1
        (RBound.included 2) (RBound.included 3) = Except.ok bs) ↔ (2 ≤ 5 ∧ 3 < 5)) :=
  ⟨rfl,
   (c2_freeze_range_bounds
     (BytesMut.new_detached 0 { data := [0, 1, 2, 3, 4], cap := 5 }).1
     { id := 0, value := { data := [0, 1, 2, 3, 4], cap := 5 } } rfl
     (RBound.included 2) (RBound.included 3)).1⟩

/-- C7 counterexample: `Inner::new_detached` constructs a `PoolHead` whose
detached flag is already true at construction, so it is not the case that
every `PoolHead`'s flag starts false. -/
theorem c7_new_detached_head_starts_true :
    ((Inner.new_detached 0 (0 : Nat)).2).isDetached = true := rfl

/-- C7 (amended): a `PoolHead` constructed by `Pool::new` starts with the
detached flag false (one constructed by `Inner::new_detached` starts with it
already true); teardown stores the flag before running the drain, and leaves
the flag true and the list drained; no operation other than teardown changes
the flag; and once true the flag is never cleared by any operation. -/
theorem c7_detached_lifecycle :
    (Pool.new α).isDetached = false ∧
    (∀ s : PoolHead α, PoolHead.teardown s = PoolHead.drain { s with isDetached := true }) ∧
    (∀ s : PoolHead α, (PoolHead.teardown s).isDetached = true ∧
      (PoolHead.teardown s).head = []) ∧
    (∀ (op : PoolOp α) (s : PoolHead α), op ≠ PoolOp.teardown →
      (PoolOp.apply op s).isDetached = s.isDetached) ∧
    (∀ (op : PoolOp α) (s : PoolHead α), s.isDetached = true →
      (PoolOp.apply op s).isDetached = true) := by
  have hpreserve : ∀ (op : PoolOp α) (s : PoolHead α), op ≠ PoolOp.teardown →
      (PoolOp.apply op s).isDetached = s.isDetached := by
    intro op s hop
    cases op with
    | lend freshId f =>
      cases h : s.head <;> simp [PoolOp.apply, Pool.lend, h]
    | release i =>
      cases hi : i.entry with
      | none => simp [PoolOp.apply, Inner.drop, hi]
      | some e =>
        by_cases hd : s.isDetached <;> simp [PoolOp.apply, Inner.drop, hi, hd]
    | sharedDrop c =>
      by_cases hc : c.refCount ≤ 1
      · cases hi : c.inner.entry with
        | none => simp [PoolOp.apply, Shared.drop, hc, Inner.drop, hi]
        | some e =>
          by_cases hd : s.isDetached <;>
            simp [PoolOp.apply, Shared.drop, hc, Inner.drop, hi, hd]
      · simp [PoolOp.apply, Shared.drop, hc]
    | teardown => exact absurd rfl hop
  refine ⟨rfl, fun s => rfl, ?_, hpreserve, ?_⟩
  · intro s
    exact ⟨rfl, by simp [PoolHead.teardown, PoolHead.drain, drainList_eq_nil]⟩
  · intro op s hd
    cases op with
    | teardown => rfl
    | lend freshId f => rw [hpreserve _ s (fun h => PoolOp.noConfusion h), hd]
    | release i => rw [hpreserve _ s (fun h => PoolOp.noConfusion h), hd]
    | sharedDrop c => rw [hpreserve _ s (fun h => PoolOp.noConfusion h), hd]

/-- C7 witness: the theorem applied to a release step on a fresh pool of
naturals. -/
theorem c7_detached_lifecycle_witness :
    ((PoolOp.release (Inner.new 0 (0 : Nat)) : PoolOp Nat) ≠ PoolOp.teardown) ∧
    (PoolOp.apply (PoolOp.release (Inner.new 0 (0 : Nat))) (Pool.new Nat)).isDetached
      = (Pool.new Nat).isDetached :=
  ⟨fun h => PoolOp.noConfusion h,
   (@c7_detached_lifecycle Nat).2.2.2.1 (PoolOp.release (Inner.new 0 0)) (Pool.new Nat)
     (fun h => PoolOp.noConfusion h)⟩

/-- C8: equality and hashing on `Shared` and on `Bytes` are structural over
the referenced content — handles over equal content compare equal and hash
equally whatever their allocation identities, and differing content compares
unequal. -/
theorem c8_structural_eq_hash {α : Type} [BEq α] [LawfulBEq α] :
    (∀ (a b : Shared α) (va vb : α), Inner.as_ref a.inner = some va →
      Inner.as_ref b.inner = some vb →
      (Shared.eqShared a b = some true ↔ va = vb)) ∧
    (∀ (a b : Shared α) (va vb : α), Inner.as_ref a.inner = some va →
      Inner.as_ref b.inner = some vb → va ≠ vb →
      Shared.eqShared a b = some false) ∧
    (∀ (hashFn : α → Nat) (a b : Shared α) (v : α), Inner.as_ref a.inner = some v →
      Inner.as_ref b.inner = some v →
      Shared.hashShared hashFn a = Shared.hashShared hashFn b) ∧
    (∀ (a b : Bytes) (x y : List Nat), Bytes.as_ref a = some x →
      Bytes.as_ref b = some y → (Bytes.eqBytes a b = some true ↔ x = y)) ∧
    (∀ (a b : Bytes) (x y : List Nat), Bytes.as_ref a = some x →
      Bytes.as_ref b = some y → x ≠ y → Bytes.eqBytes a b = some false) ∧
    (∀ (hashFn : List Nat → Nat) (a b : Bytes) (x : List Nat),
      Bytes.as_ref a = some x → Bytes.as_ref b = some x →
      Bytes.hashBytes hashFn a = Bytes.hashBytes hashFn b) := by
  refine ⟨?_, ?_, ?_, ?_, ?_, ?_⟩
  · intro a b va vb ha hb
    simp [Shared.eqShared, ha, hb]
  · intro a b va vb ha hb hne
    simp [Shared.eqShared, ha, hb, hne]
  · intro hashFn a b v ha hb
    simp [Shared.hashShared, ha, hb]
  · intro a b x y ha hb
    simp [Bytes.eqBytes, ha, hb]
  · intro a b x y ha hb hne
    simp [Bytes.eqBytes, ha, hb, hne]
  · intro hashFn a b x ha hb
    simp [Bytes.hashBytes, ha, hb]

/-- C8 witness: two shared naturals at distinct box addresses with equal
values compare equal, and two byte views over distinct allocations with
distinct windows but equal visible slices compare equal. -/
theorem c8_structural_eq_hash_witness :
    Shared.eqShared
        { refCount := 1, inner := { entry := some { id := 0, value := (5 : Nat) } } }
        { refCount := 1, inner := { entry := some { id := 1, value := (5 : Nat) } } }
      = some true ∧
    Bytes.as_ref
        { inner :=
            { refCount := 1,
              inner := { entry := some { id := 0, value := { data := [9, 1, 2], cap := 3 } } } },
          offset_from := 1, offset_to := 3 }
      = some [1, 2] ∧
    Bytes.eqBytes
        { inner :=
            { refCount := 1,
              inner := { entry := some { id := 0, value := { data := [9, 1, 2], cap := 3 } } } },
          offset_from := 1, offset_to := 3 }
        { inner :=
            { refCount := 1,
              inner := { entry := some { id := 1, value := { data := [1, 2, 7, 8], cap := 4 } } } },
          offset_from := 0, offset_to := 2 }
      = some true :=
  ⟨((@c8_structural_eq_hash Nat _ _).1
      { refCount := 1, inner := { entry := some { id := 0, value := 5 } } }
      { refCount := 1, inner := { entry := some { id := 1, value := 5 } } }
      5 5 rfl rfl).mpr rfl,
   by decide,
   ((@c8_structural_eq_hash Nat _ _).2.2.2.1
      { inner :=
          { refCount := 1,
            inner := { entry := some { id := 0, value := { data := [9, 1, 2], cap := 3 } } } },
        offset_from := 1, offset_to := 3 }
      { inner :=
          { refCount := 1,
            inner := { entry := some { id := 1, value := { data := [1, 2, 7, 8], cap := 4 } } } },
        offset_from := 0, offset_to := 2 }
      [1, 2] [1, 2] (by decide) (by decide)).mpr rfl⟩

/-- C9: evaluating the code at the inverted range `4 .. 2` over the five-byte
buffer `[0, 1, 2, 3, 4]`: `freeze_range` passes both per-bound checks and
returns a `Bytes` with window `[4, 2)` without any contract violation, yet
the subsequent slice access `as_ref` aborts (window start past window end),
contradicting the claim that read access after a successful `freeze_range`
never aborts. -/
theorem c9_inverted_range_slice_aborts :
    (BytesMut.freeze_range
        (BytesMut.new_detached 0 { data := [0, 1, 2, 3, 4], cap := 5 }).1
        (RBound.included 4) (RBound.excluded 2)).map Bytes.as_ref
      = Except.ok none := rfl

/-- C10: every handle produced by the crate's constructors holds an entry:
`Inner::new` and the lend paths yield an inner whose entry is present, so the
value reads behind `as_ref`/`deref` succeed; `freeze` and `clone` alias the
same inner unchanged; and mutation through `as_mut`/`deref_mut` keeps the
entry present (the entry is taken only in the release path). -/
theorem c10_live_handles_total :
    (∀ (freshId : Nat) (v : α), Inner.as_ref (Inner.new freshId v) = some v) ∧
    (∀ (s : PoolHead α) (freshId : Nat) (f : Unit → α),
      (Inner.as_ref ((Pool.lend s freshId f).1).inner).isSome = true) ∧
    (∀ (freshId : Nat) (v : α),
      Inner.as_ref ((Unique.new_detached freshId v).1).inner = some v) ∧
    (∀ u : Unique α, (Unique.freeze u).inner = u.inner) ∧
    (∀ c : Shared α, (Shared.clone c).inner = c.inner) ∧
    (∀ (f : α → α) (u : Unique α) (e : Entry α), u.inner.entry = some e →
      Inner.as_ref (Unique.mapValue f u).inner = some (f e.value)) := by
  refine ⟨fun freshId v => rfl, ?_, fun freshId v => rfl, fun u => rfl, fun c => rfl, ?_⟩
  · intro s freshId f
    cases h : s.head <;> simp [Pool.lend, h, Inner.new, Inner.as_ref]
  · intro f u e he
    simp [Unique.mapValue, Inner.as_ref, he]

/-- C10 witness: the theorem applied to a detached natural incremented
through the mutable deref path. -/
theorem c10_live_handles_total_witness :
    ((Unique.new_detached 4 (10 : Nat)).1).inner.entry
      = some { id := 4, value := 10 } ∧
    Inner.as_ref
        (Unique.mapValue (fun n => n + 1) (Unique.new_detached 4 (10 : Nat)).1).inner
      = some 11 :=
  ⟨rfl,
   (@c10_live_handles_total Nat).2.2.2.2.2 (fun n => n + 1)
     (Unique.new_detached 4 10).1 { id := 4, value := 10 } rfl⟩

end AllocPool
